import Mathlib

/-!
Shallow embedding of the tightly-coupled INS/GPS estimator core
(`src/tool/navigation/GPS.h` and `src/tool/navigation/INS_GPS_Synchronization.h`).
Machine floating point (`float_t = double`) is modelled by exact rationals `ℚ`;
integer fields by `ℤ`.  Each definition is a direct transliteration of the
corresponding C++ member function named in its doc comment.
-/

/-- `GPS_Time::seconds_week = 60*60*24*7` (GPS.h). -/
def seconds_week : ℚ := 604800

/-- `GPS_Time`: a pair (week, seconds_in_week) (GPS.h). -/
structure GPS_Time where
  week : ℤ
  seconds : ℚ
deriving DecidableEq, Repr

/-- `GPS_Time::canonicalize` (GPS.h): move whole weeks from the seconds
field into the week field using `std::floor(seconds / seconds_week)`. -/
def GPS_Time.canonicalize (t : GPS_Time) : GPS_Time :=
  let quot : ℤ := ⌊t.seconds / seconds_week⌋
  ⟨t.week + quot, t.seconds - seconds_week * quot⟩

/-- `GPS_Time::operator+=(float_t)` (GPS.h); `operator+` copies then delegates
to `operator+=`, so both are this function. -/
def GPS_Time.add (t : GPS_Time) (sec : ℚ) : GPS_Time :=
  GPS_Time.canonicalize ⟨t.week, t.seconds + sec⟩

/-- `GPS_Time::operator-=(float_t)` and `operator-(float_t)` (GPS.h):
delegate to `operator+=` with the negated offset. -/
def GPS_Time.sub (t : GPS_Time) (sec : ℚ) : GPS_Time :=
  t.add (-sec)

/-- `GPS_Time::operator-(const GPS_Time &)` (GPS.h): interval in seconds. -/
def GPS_Time.diff (a b : GPS_Time) : ℚ :=
  (a.seconds - b.seconds) + ((a.week - b.week : ℤ) : ℚ) * seconds_week

/-- `GPS_Time::interval(t_week, t_seconds)` (GPS.h). -/
def GPS_Time.interval (t : GPS_Time) (t_week : ℤ) (t_seconds : ℚ) : ℚ :=
  t_seconds - t.seconds + ((t_week - t.week : ℤ) : ℚ) * seconds_week

/-- `Ephemeris` (GPS.h), restricted to the fields the verified operations
read: week number, clock/ephemeris reference times and the fit interval. -/
structure Ephemeris where
  WN : ℤ
  t_oc : ℚ
  t_oe : ℚ
  fit_interval : ℚ
deriving DecidableEq, Repr

/-- `Ephemeris::period_from_time_of_clock` (GPS.h): `-t.interval(WN, t_oc)`. -/
def Ephemeris.period_from_time_of_clock (e : Ephemeris) (t : GPS_Time) : ℚ :=
  -(t.interval e.WN e.t_oc)

/-- `Ephemeris::period_from_first_valid_transmittion` (GPS.h). -/
def Ephemeris.period_from_first_valid_transmittion (e : Ephemeris) (t : GPS_Time) : ℚ :=
  e.period_from_time_of_clock t + e.fit_interval / 2

/-- `Ephemeris::is_valid` (GPS.h):
`std::abs(period_from_time_of_clock(t)) <= (fit_interval / 2)`. -/
def Ephemeris.is_valid (e : Ephemeris) (t : GPS_Time) : Bool :=
  decide (|e.period_from_time_of_clock t| ≤ e.fit_interval / 2)

/-- `Ephemeris::maybe_better_one_avilable` (GPS.h). -/
def Ephemeris.maybe_better_one_avilable (e : Ephemeris) (t : GPS_Time) : Bool :=
  let delta_t := e.period_from_first_valid_transmittion t
  let transmittion_interval : ℚ :=
    if e.fit_interval > 4 * 60 * 60 then e.fit_interval / 2 else 1 * 60 * 60
  decide (¬(delta_t ≥ 0 ∧ delta_t < transmittion_interval))

/-- C6: `Ephemeris::is_valid(t)` returns true exactly when the absolute
difference between `t` and the clock reference epoch `(WN, t_oc)` — the
GPS-time difference, which `period_from_time_of_clock` computes as
`-t.interval(WN, t_oc)` — is at most `fit_interval / 2`. -/
theorem ephemeris_is_valid_iff (e : Ephemeris) (t : GPS_Time) :
    e.is_valid t = true ↔ |GPS_Time.diff t ⟨e.WN, e.t_oc⟩| ≤ e.fit_interval / 2 := by
  have harg : e.period_from_time_of_clock t = GPS_Time.diff t ⟨e.WN, e.t_oc⟩ := by
    simp only [Ephemeris.period_from_time_of_clock, GPS_Time.interval, GPS_Time.diff]
    push_cast
    ring
  simp [Ephemeris.is_valid, harg]

/-- C9: starting from a canonical `GPS_Time` (0 ≤ seconds < 604800), each of
`operator+=`, `operator-=`, `operator+`, `operator-` (all four reduce to
`GPS_Time.add`/`GPS_Time.sub`) restores the invariant 0 ≤ seconds < 604800,
and the difference of two times is `Δweek·604800 + Δseconds`. -/
theorem gps_time_arith_invariant (t u : GPS_Time) (d : ℚ)
    (h : 0 ≤ t.seconds ∧ t.seconds < seconds_week) :
    (0 ≤ (t.add d).seconds ∧ (t.add d).seconds < seconds_week) ∧
    (0 ≤ (t.sub d).seconds ∧ (t.sub d).seconds < seconds_week) ∧
    GPS_Time.diff t u = ((t.week - u.week : ℤ) : ℚ) * seconds_week + (t.seconds - u.seconds) := by
  have key : ∀ s : ℚ, 0 ≤ s - seconds_week * (⌊s / seconds_week⌋ : ℚ) ∧
      s - seconds_week * (⌊s / seconds_week⌋ : ℚ) < seconds_week := by
    intro s
    have hw : (0 : ℚ) < seconds_week := by norm_num [seconds_week]
    have h1 : (⌊s / seconds_week⌋ : ℚ) ≤ s / seconds_week := Int.floor_le _
    have h2 : s / seconds_week < (⌊s / seconds_week⌋ : ℚ) + 1 := Int.lt_floor_add_one _
    have h3 : seconds_week * (s / seconds_week) = s := by
      field_simp
    constructor
    · nlinarith [mul_le_mul_of_nonneg_left h1 (le_of_lt hw)]
    · nlinarith [mul_lt_mul_of_pos_left h2 hw]
  refine ⟨?_, ?_, ?_⟩
  · exact key (t.seconds + d)
  · exact key (t.seconds + -d)
  · simp only [GPS_Time.diff]; ring

/-- Witness for `gps_time_arith_invariant` at a concrete canonical time. -/
theorem gps_time_arith_invariant_witness :
    (0 ≤ (GPS_Time.mk 0 0).seconds ∧ (GPS_Time.mk 0 0).seconds < seconds_week) ∧
    ((0 ≤ ((GPS_Time.mk 0 0).add 1).seconds ∧ ((GPS_Time.mk 0 0).add 1).seconds < seconds_week) ∧
    (0 ≤ ((GPS_Time.mk 0 0).sub 1).seconds ∧ ((GPS_Time.mk 0 0).sub 1).seconds < seconds_week) ∧
    GPS_Time.diff (GPS_Time.mk 0 0) (GPS_Time.mk 1 5) =
      (((GPS_Time.mk 0 0).week - (GPS_Time.mk 1 5).week : ℤ) : ℚ) * seconds_week +
        ((GPS_Time.mk 0 0).seconds - (GPS_Time.mk 1 5).seconds)) :=
  ⟨by norm_num [seconds_week],
   gps_time_arith_invariant (GPS_Time.mk 0 0) (GPS_Time.mk 1 5) 1
     (by norm_num [seconds_week])⟩

/-- `KEPLER_DELTA_LIMIT` default `1E-12` (GPS.h). -/
def KEPLER_DELTA_LIMIT : ℚ := 1 / 1000000000000

/-- The iteration loop of `Ephemeris::eccentric_anomaly` (GPS.h):
`for(int loop(0); loop < 10; loop++){ Ek2 = step(Ek); if(|Ek2-Ek| < limit) break; Ek = Ek2; }`.
The fixed-point map `E ↦ Mk + e·sin(E)` is abstracted as `step` because the
sine comes from the external math library; `fuel` is the remaining loop count. -/
def kepler_fixpoint (step : ℚ → ℚ) (limit : ℚ) : ℕ → ℚ → ℚ
  | 0, Ek => Ek
  | n + 1, Ek =>
    if |step Ek - Ek| < limit then Ek else kepler_fixpoint step limit n (step Ek)

/-- `Ephemeris::eccentric_anomaly(period_from_toe)` (GPS.h): start from
`Ek = Mk` and run the capped fixed-point loop (10 iterations). -/
def eccentric_anomaly (step : ℚ → ℚ) (Mk : ℚ) : ℚ :=
  kepler_fixpoint step KEPLER_DELTA_LIMIT 10 Mk

/-- Characterization of `kepler_fixpoint`: the result is `step^[k]` of the
start for some `k ≤ fuel`; no earlier iterate met the stop test, and if the
cap was not hit the stop test holds at the result. -/
theorem kepler_fixpoint_spec (step : ℚ → ℚ) (limit : ℚ) :
    ∀ (n : ℕ) (E0 : ℚ), ∃ k : ℕ, k ≤ n ∧
      kepler_fixpoint step limit n E0 = step^[k] E0 ∧
      (∀ j : ℕ, j < k → ¬(|step (step^[j] E0) - step^[j] E0| < limit)) ∧
      (k < n → |step (step^[k] E0) - step^[k] E0| < limit) := by
  intro n
  induction n with
  | zero =>
    intro E0
    exact ⟨0, le_refl 0, rfl, by omega, by omega⟩
  | succ n ih =>
    intro E0
    by_cases hstop : |step E0 - E0| < limit
    · refine ⟨0, Nat.zero_le _, ?_, by omega, fun _ => ?_⟩
      · simp [kepler_fixpoint, hstop]
      · simpa using hstop
    · obtain ⟨k, hk, heq, hmin, hcap⟩ := ih (step E0)
      refine ⟨k + 1, by omega, ?_, ?_, ?_⟩
      · rw [show kepler_fixpoint step limit (n + 1) E0 =
            kepler_fixpoint step limit n (step E0) by simp [kepler_fixpoint, hstop]]
        rw [heq, ← Function.iterate_succ_apply]
      · intro j hj
        match j with
        | 0 => simpa using hstop
        | j + 1 =>
          have := hmin j (by omega)
          simpa [Function.iterate_succ_apply] using this
      · intro hlt
        have := hcap (by omega)
        simpa [Function.iterate_succ_apply] using this

/-- C7: `eccentric_anomaly` performs at most 10 applications of the
fixed-point map `E ↦ Mk + e·sin(E)` (abstracted as `step`) starting from
`E = Mk`, stops early exactly when a newly computed iterate differs from the
last accepted one by less than `KEPLER_DELTA_LIMIT = 10⁻¹²` (returning the
last accepted iterate), and returns the post-10 iterate when the cap is hit. -/
theorem eccentric_anomaly_iteration (step : ℚ → ℚ) (Mk : ℚ) :
    ∃ k : ℕ, k ≤ 10 ∧
      eccentric_anomaly step Mk = step^[k] Mk ∧
      (∀ j : ℕ, j < k → ¬(|step (step^[j] Mk) - step^[j] Mk| < KEPLER_DELTA_LIMIT)) ∧
      (k < 10 → |step (step^[k] Mk) - step^[k] Mk| < KEPLER_DELTA_LIMIT) :=
  kepler_fixpoint_spec step KEPLER_DELTA_LIMIT 10 Mk

/-- C-style cast of a floating value to `s32_t` (truncation toward zero),
as used by `Ephemeris::raw_t::operator=` (GPS.h). -/
def to_s32 (q : ℚ) : ℤ := if q < 0 then ⌈q⌉ else ⌊q⌋

/-- One scaled field of `Ephemeris::raw_t::operator Ephemeris` (GPS.h):
`converted.TARGET = sf[SF_TARGET] * TARGET`. -/
def raw_field_to_float (sf : ℚ) (raw : ℤ) : ℚ := sf * raw

/-- One scaled field of `Ephemeris::raw_t::operator=` (GPS.h):
`TARGET = (s32_t)((eph.TARGET + 0.5 * sf[SF_TARGET]) / sf[SF_TARGET])`. -/
def float_field_to_raw (sf : ℚ) (x : ℚ) : ℤ := to_s32 ((x + 1/2 * sf) / sf)

/-- `GPS_SC2RAD` literal `3.1415926535898` (GPS.h). -/
def GPS_SC2RAD : ℚ := 31415926535898 / 10 ^ 13

/-- `Ephemeris::raw_t::sf`, the IS-GPS-200 scale table (GPS.h), in the
declared order t_GD, t_oc, a_f0, a_f1, a_f2, c_rs, delta_n, M0, c_uc, e,
c_us, sqrt_A, t_oe, c_ic, Omega0, c_is, i0, c_rc, omega, dot_Omega0, dot_i0. -/
def Ephemeris_raw_sf : List ℚ :=
  [1 / 2 ^ 31, 2 ^ 4, 1 / 2 ^ 31, 1 / 2 ^ 43, 1 / 2 ^ 55,
   1 / 2 ^ 5, GPS_SC2RAD / 2 ^ 43, GPS_SC2RAD / 2 ^ 31, 1 / 2 ^ 29, 1 / 2 ^ 33,
   1 / 2 ^ 29, 1 / 2 ^ 19, 2 ^ 4,
   1 / 2 ^ 29, GPS_SC2RAD / 2 ^ 31, 1 / 2 ^ 29, GPS_SC2RAD / 2 ^ 31,
   1 / 2 ^ 5, GPS_SC2RAD / 2 ^ 31, GPS_SC2RAD / 2 ^ 43, GPS_SC2RAD / 2 ^ 43]

/-- Round trip through one scaled field for any positive scale factor:
`(sf·r + sf/2)/sf = r + 1/2`, and truncation toward zero maps `r + 1/2` to
`r` when `r ≥ 0` and to `r + 1` when `r < 0`. -/
theorem raw_field_roundtrip (sf : ℚ) (hsf : 0 < sf) (r : ℤ) :
    |float_field_to_raw sf (raw_field_to_float sf r) - r| ≤ 1 := by
  have harg : (raw_field_to_float sf r + 1/2 * sf) / sf = (r : ℚ) + 1/2 := by
    rw [raw_field_to_float]
    field_simp
    ring
  rw [float_field_to_raw, harg, to_s32]
  by_cases hr : ((r : ℚ) + 1/2) < 0
  · have h12 : ⌈(1/2 : ℚ)⌉ = 1 := by
      rw [Int.ceil_eq_iff] <;> norm_num
    have hceil : ⌈(r : ℚ) + 1/2⌉ = r + 1 := by
      rw [add_comm, Int.ceil_add_int, h12, add_comm]
    rw [if_pos hr, hceil]
    simp
  · have h12 : ⌊(1/2 : ℚ)⌋ = 0 := by
      rw [Int.floor_eq_iff] <;> norm_num
    have hfloor : ⌊(r : ℚ) + 1/2⌋ = r := by
      rw [add_comm, Int.floor_add_int, h12, zero_add]
    rw [if_neg hr, hfloor]
    simp

/-- C8: for every entry of the broadcast scale table `Ephemeris::raw_t::sf`
and every scaled-integer field value, converting to the floating-point
`Ephemeris` (multiply by the scale) and back to `raw_t` (divide with the
half-LSB offset, truncating toward zero) reproduces the integer to within
1 least significant bit. -/
theorem ephemeris_raw_roundtrip (sf : ℚ) (hsf : sf ∈ Ephemeris_raw_sf) (r : ℤ) :
    |float_field_to_raw sf (raw_field_to_float sf r) - r| ≤ 1 := by
  have hpos : (0 : ℚ) < sf := by
    fin_cases hsf <;> norm_num [GPS_SC2RAD]
  exact raw_field_roundtrip sf hpos r

/-- Witness for `ephemeris_raw_roundtrip` at the `t_GD` scale and raw value -5. -/
theorem ephemeris_raw_roundtrip_witness :
    (1 / 2 ^ 31 : ℚ) ∈ Ephemeris_raw_sf ∧
    |float_field_to_raw (1 / 2 ^ 31) (raw_field_to_float (1 / 2 ^ 31) (-5)) - (-5)| ≤ 1 :=
  ⟨List.mem_cons_self _ _,
   ephemeris_raw_roundtrip (1 / 2 ^ 31) (List.mem_cons_self _ _) (-5)⟩

/-- The scan loop of `INS_GPS_RealTime::setup_correct`
(INS_GPS_Synchronization.h) over the reversed snapshot list (newest first),
each snapshot represented by its `elapsedT_from_last_update`.  `orig` is the
untouched list (oldest first), `passed` counts snapshots already walked.  On
a match (`advanceT > -0.005`) everything up to and including the matched
snapshot is erased — keeping the newest snapshot when the match is the
newest itself (`it == rbegin` ⇒ `it++`). -/
def setup_correct_scan (orig : List ℚ) : ℚ → List ℚ → ℕ → Bool × List ℚ
  | _, [], _ => (false, orig)
  | advanceT, x :: rest, passed =>
    let advanceT2 := advanceT + x
    if advanceT2 > -(5/1000) then
      (true, orig.drop (orig.length - max passed 1))
    else setup_correct_scan orig advanceT2 rest (passed + 1)

/-- `INS_GPS_RealTime::setup_correct(advanceT)` (INS_GPS_Synchronization.h):
reject positive `advanceT` (future measurement), otherwise scan newest-first
accumulating elapsed times. -/
def setup_correct (advanceT : ℚ) (snaps : List ℚ) : Bool × List ℚ :=
  if advanceT > 0 then (false, snaps)
  else setup_correct_scan snaps advanceT snaps.reverse 0

/-- C5: for every positive `advanceT`, `setup_correct` returns false and the
snapshot list is untouched, so the measurement update is skipped. -/
theorem setup_correct_rejects_future (advanceT : ℚ) (snaps : List ℚ)
    (h : 0 < advanceT) :
    setup_correct advanceT snaps = (false, snaps) := by
  rw [setup_correct, if_pos h]

/-- Witness for `setup_correct_rejects_future` at `advanceT = +0.01`. -/
theorem setup_correct_rejects_future_witness :
    (0 : ℚ) < 1/100 ∧ setup_correct (1/100) [1/100, 2/100] = (false, [1/100, 2/100]) :=
  ⟨by norm_num, setup_correct_rejects_future (1/100) [1/100, 2/100] (by norm_num)⟩

/-- `GPS_SpaceNode::light_speed = 2.99792458E8` (GPS.h). -/
def light_speed : ℚ := 299792458

/-- `CorrectInfo` (GPS.h) as assembled by `correct_info`: observation matrix
`H` (list of rows), residual vector `z` and measurement covariance `R`. -/
structure CorrectInfo where
  H : List (List ℚ)
  z : List ℚ
  R : List (List ℚ)
deriving DecidableEq, Repr

/-- `INS_GPS2_Tightly::range_residual_mean_ms(clock_index, info)` (GPS.h):
mean of the `z` rows whose clock-error column entry is not above `-0.5`
(rows with clock column `-1`), divided by `light_speed · 1E-3`; `ccol` is
`P_SIZE_WITHOUT_CLOCK_ERROR + 2·clock_index`.  Returns 0 when no row
qualifies. -/
def range_residual_mean_ms (ccol : ℕ) (info : CorrectInfo) : ℚ :=
  let rows := (info.H.zip info.z).filter (fun p => decide (p.1.getD ccol 0 ≤ -(1/2)))
  if 0 < rows.length then
    (rows.map (fun p => p.2)).sum / (rows.length : ℚ) / light_speed / (1/1000)
  else 0

/-- The clock-error state `INS_GPS_RealTime::correct2_tightly` mutates: the
stored `clock_error(clock_index)` of each retained snapshot (oldest first)
and the live filter's `clock_error(clock_index)`. -/
structure TightlyState where
  snapshots : List ℚ
  clock_error : ℚ
deriving DecidableEq, Repr

/-- `INS_GPS_RealTime::correct2_tightly` (INS_GPS_Synchronization.h).
`gen s` stands for `generator(snapshots.front().ins_gps, gps, s)`, i.e. the
`CorrectInfo` regenerated with clock-error shift `s`.  The result is the
updated clock-error state together with the correction handed to
`correct_with_info` (`none` when the epoch is skipped). -/
def correct2_tightly (gen : ℚ → CorrectInfo) (ccol : ℕ) (st : TightlyState) :
    TightlyState × Option CorrectInfo :=
  let info := gen 0
  if info.z.length < 1 then (st, none)
  else
    let delta_ms := range_residual_mean_ms ccol info
    if delta_ms ≥ 9/10 ∨ delta_ms ≤ -(9/10) then
      let clock_error_shift := light_speed * (1/1000) * (⌊delta_ms + 1/2⌋ : ℚ)
      let info2 := gen clock_error_shift
      let delta_ms2 := range_residual_mean_ms ccol info2
      if delta_ms2 < 9/10 ∧ delta_ms2 > -(9/10) then
        (⟨st.snapshots.map (fun c => c + clock_error_shift),
          st.clock_error + clock_error_shift⟩, some info2)
      else (st, none)
    else (st, some info)

/-- C1: whenever the mean range residual attributable to the clock column
reaches 0.9 ms in absolute value, `correct2_tightly` computes
`shift = c·10⁻³·round(μ_ms)` (the source's `floor(μ_ms + 0.5)` equals
Mathlib's `round`), regenerates the correction with that shift, and
re-checks: if the new mean is strictly below 0.9 ms in absolute value the
shift is committed into every snapshot's clock error and the live filter's
clock error and the shifted correction is applied; otherwise the state is
unchanged and the epoch is skipped. -/
theorem clock_jump_detection (gen : ℚ → CorrectInfo) (ccol : ℕ) (st : TightlyState)
    (hz : 1 ≤ (gen 0).z.length)
    (hmean : |range_residual_mean_ms ccol (gen 0)| ≥ 9/10) :
    correct2_tightly gen ccol st =
      (let shift := light_speed * (1/1000) *
          ((round (range_residual_mean_ms ccol (gen 0)) : ℤ) : ℚ)
       let info2 := gen shift
       if |range_residual_mean_ms ccol info2| < 9/10 then
         (⟨st.snapshots.map (fun c => c + shift), st.clock_error + shift⟩, some info2)
       else (st, none)) := by
  have hz2 : ¬((gen 0).z.length < 1) := by omega
  have hcond : range_residual_mean_ms ccol (gen 0) ≥ 9/10 ∨
      range_residual_mean_ms ccol (gen 0) ≤ -(9/10) := by
    rcases le_abs.mp hmean with h | h
    · exact Or.inl h
    · exact Or.inr (by linarith)
  rw [correct2_tightly]
  simp only [if_neg hz2, if_pos hcond, round_eq]
  by_cases h2 : |range_residual_mean_ms ccol
      (gen (light_speed * (1/1000) *
        ((⌊range_residual_mean_ms ccol (gen 0) + 1/2⌋ : ℤ) : ℚ)))| < 9/10
  · have h2ab := abs_lt.mp h2
    rw [if_pos ⟨h2ab.2, h2ab.1⟩, if_pos h2]
  · have h2ab : ¬(range_residual_mean_ms ccol
        (gen (light_speed * (1/1000) *
          ((⌊range_residual_mean_ms ccol (gen 0) + 1/2⌋ : ℤ) : ℚ))) < 9/10 ∧
        range_residual_mean_ms ccol
          (gen (light_speed * (1/1000) *
            ((⌊range_residual_mean_ms ccol (gen 0) + 1/2⌋ : ℤ) : ℚ))) > -(9/10)) := by
      intro hc
      exact h2 (abs_lt.mpr ⟨hc.2, hc.1⟩)
    rw [if_neg h2ab, if_neg h2]

/-- Witness for `clock_jump_detection`: three-free-parameter instance with one
range row (clock column −1) whose residual is `c·10⁻³ − shift`, so the first
mean is 1.0 ms and the regenerated mean is 0. -/
theorem clock_jump_detection_witness :
    (1 ≤ ((fun s : ℚ => CorrectInfo.mk [[-1]] [light_speed * (1/1000) - s] [[1]]) 0).z.length) ∧
    (|range_residual_mean_ms 0
        ((fun s : ℚ => CorrectInfo.mk [[-1]] [light_speed * (1/1000) - s] [[1]]) 0)| ≥ 9/10) ∧
    correct2_tightly (fun s : ℚ => CorrectInfo.mk [[-1]] [light_speed * (1/1000) - s] [[1]]) 0
        (TightlyState.mk [0] 0) =
      (let shift := light_speed * (1/1000) *
          ((round (range_residual_mean_ms 0
            ((fun s : ℚ => CorrectInfo.mk [[-1]] [light_speed * (1/1000) - s] [[1]]) 0)) : ℤ) : ℚ)
       let info2 := (fun s : ℚ => CorrectInfo.mk [[-1]] [light_speed * (1/1000) - s] [[1]]) shift
       if |range_residual_mean_ms 0 info2| < 9/10 then
         ((TightlyState.mk ((TightlyState.mk [0] 0).snapshots.map (fun c => c + shift))
            ((TightlyState.mk [0] 0).clock_error + shift)), some info2)
       else ((TightlyState.mk [0] 0), none)) :=
  ⟨by simp,
   by norm_num [range_residual_mean_ms, light_speed, List.filter],
   clock_jump_detection (fun s : ℚ => CorrectInfo.mk [[-1]] [light_speed * (1/1000) - s] [[1]]) 0
     (TightlyState.mk [0] 0)
     (by simp)
     (by norm_num [range_residual_mean_ms, light_speed, List.filter])⟩

/-- The reverse walk of `INS_GPS_Back_Propagate::before_correct_INS`
(INS_GPS_Synchronization.h), acting on the reversed snapshot list (newest
first); each snapshot is its `elapsedT_from_last_correct`.  A snapshot not
yet below the depth gets `mod_elapsedT` subtracted; at the first snapshot
strictly below the depth, that snapshot and everything older is erased when
`mod_elapsedT > 0.1`, otherwise the walk just stops. -/
def back_propagate_walk (depth mod_elapsedT : ℚ) : List ℚ → List ℚ
  | [] => []
  | x :: rest =>
    if x < depth then
      (if mod_elapsedT > 1/10 then [] else x :: rest)
    else (x - mod_elapsedT) :: back_propagate_walk depth mod_elapsedT rest

/-- The snapshot-list maintenance performed by
`INS_GPS_Back_Propagate::before_correct_INS` before the newest snapshot is
popped and corrected: when the list is nonempty and the newest snapshot's
`elapsedT_from_last_correct` (`mod_elapsedT`) is positive, run the reverse
walk; the snapshot list is stored oldest first. -/
def before_correct_snapshots (depth : ℚ) (snaps : List ℚ) : List ℚ :=
  if snaps.isEmpty then snaps
  else
    let mod_elapsedT := snaps.getLastD 0
    if mod_elapsedT > 0 then
      (back_propagate_walk depth mod_elapsedT snaps.reverse).reverse
    else snaps

/-- C3 counterexample: depth 0 (not > 0.1 s) and snapshots
[−0.05 s, 0.2 s] (oldest first).  The walk reaches the −0.05 snapshot
(−0.05 < depth) and erases it anyway — erasure is governed by the newest
snapshot's elapsed time 0.2 > 0.1, not by `back_propagate_depth`. -/
theorem back_propagate_erase_counterexample :
    before_correct_snapshots 0 [-(1/20), 1/5] = [0] ∧ ¬((0 : ℚ) > 1/10) := by
  constructor
  · norm_num [before_correct_snapshots, back_propagate_walk, List.getLastD]
  · norm_num

/-- The last element of `xs ++ t :: ys` is the last of `ys`, or `t` when `ys`
is empty. -/
theorem getLastD_append_cons (xs : List ℚ) (t : ℚ) (ys : List ℚ) (d : ℚ) :
    (xs ++ t :: ys).getLastD d = ys.getLastD t := by
  induction xs generalizing d with
  | nil => exact List.getLastD_cons d t ys
  | cons x xs ih =>
    rw [List.cons_append, List.getLastD_cons]
    exact ih x

/-- The reverse walk passes through snapshots not below the depth,
subtracting `mod_elapsedT` from each. -/
theorem back_propagate_walk_no_trigger (depth m : ℚ) (l rest : List ℚ)
    (h : ∀ y ∈ l, ¬(y < depth)) :
    back_propagate_walk depth m (l ++ rest) =
      l.map (fun y => y - m) ++ back_propagate_walk depth m rest := by
  induction l with
  | nil => simp
  | cons x l ih =>
    have hx : ¬(x < depth) := h x (List.mem_cons_self x l)
    have hl : ∀ y ∈ l, ¬(y < depth) := fun y hy => h y (List.mem_cons_of_mem x hy)
    simp only [List.cons_append, back_propagate_walk, if_neg hx, List.map_cons]
    exact congrArg (List.cons (x - m)) (ih hl)

/-- C3 amended: in the pre-correction walk, when the first snapshot (from the
newest) whose `elapsedT_from_last_correct` is strictly below
`back_propagate_depth` is reached, the front of the list up to and including
that snapshot is erased if and only if the newest snapshot's
`elapsedT_from_last_correct` (`mod_elapsedT`) is greater than 0.1 s — not
`back_propagate_depth`; in either case the walked newer snapshots have
`mod_elapsedT` subtracted, and when the trigger is the newest snapshot the
erasure removes the only snapshot(s), so the guard does not protect the last
snapshot in general. -/
theorem back_propagate_erase_condition (depth t : ℚ) (xs ys : List ℚ)
    (hys : ∀ y ∈ ys, ¬(y < depth)) (ht : t < depth)
    (hm : 0 < ys.getLastD t) :
    before_correct_snapshots depth (xs ++ t :: ys) =
      (if ys.getLastD t > 1/10
       then ys.map (fun y => y - ys.getLastD t)
       else xs ++ t :: ys.map (fun y => y - ys.getLastD t)) := by
  have hne : (xs ++ t :: ys).isEmpty = false := by simp
  have hrev : (xs ++ t :: ys).reverse = ys.reverse ++ t :: xs.reverse := by
    simp [List.reverse_append]
  have hysrev : ∀ y ∈ ys.reverse, ¬(y < depth) := by
    intro y hy
    exact hys y (List.mem_reverse.mp hy)
  have hwalkcons : back_propagate_walk depth (ys.getLastD t) (t :: xs.reverse) =
      (if ys.getLastD t > 1/10 then [] else t :: xs.reverse) := by
    rw [show back_propagate_walk depth (ys.getLastD t) (t :: xs.reverse) =
        (if t < depth
         then (if ys.getLastD t > 1/10 then [] else t :: xs.reverse)
         else (t - ys.getLastD t) :: back_propagate_walk depth (ys.getLastD t) xs.reverse)
      from rfl]
    rw [if_pos ht]
  rw [before_correct_snapshots.eq_def]
  rw [hne]
  rw [if_neg (by simp : ¬(false = true))]
  rw [getLastD_append_cons]
  rw [if_pos hm]
  rw [hrev]
  rw [back_propagate_walk_no_trigger depth (ys.getLastD t) ys.reverse (t :: xs.reverse) hysrev]
  rw [hwalkcons]
  by_cases hcut : ys.getLastD t > 1/10
  · rw [if_pos hcut, if_pos hcut]
    simp [List.map_reverse]
  · rw [if_neg hcut, if_neg hcut]
    simp [List.reverse_append, List.map_reverse]

/-- Witness for `back_propagate_erase_condition`: depth 0, snapshots
[−0.05, 0.25]; the newest elapsed time 0.25 exceeds 0.1, so the older
snapshot is erased and the newer one is decremented to 0. -/
theorem back_propagate_erase_condition_witness :
    (∀ y ∈ [(1/4 : ℚ)], ¬(y < 0)) ∧ (-(1/20) : ℚ) < 0 ∧ (0 : ℚ) < [(1/4 : ℚ)].getLastD (-(1/20)) ∧
    before_correct_snapshots 0 ([] ++ (-(1/20)) :: [(1/4 : ℚ)]) =
      (if [(1/4 : ℚ)].getLastD (-(1/20)) > 1/10
       then [(1/4 : ℚ)].map (fun y => y - [(1/4 : ℚ)].getLastD (-(1/20)))
       else [] ++ (-(1/20)) :: [(1/4 : ℚ)].map (fun y => y - [(1/4 : ℚ)].getLastD (-(1/20)))) :=
  ⟨by norm_num, by norm_num, by norm_num [List.getLastD],
   back_propagate_erase_condition 0 (-(1/20)) [] [(1/4 : ℚ)]
     (by norm_num) (by norm_num) (by norm_num [List.getLastD])⟩

/-- `INS_GPS_RealTime_Property::rt_mode_t` (INS_GPS_Synchronization.h). -/
inductive rt_mode_t where
  | RT_NORMAL
  | RT_LIGHT_WEIGHT
deriving DecidableEq, Repr

/-- `INS_GPS_RealTime::snapshot_content_t` (INS_GPS_Synchronization.h):
continuous system matrix `A`, `Phi_inv = (I + A·Δt)⁻¹` as stored by
`before_update_INS`, process-noise image `GQGt`, and the step interval. -/
structure RT_snapshot (p : ℕ) where
  A : Matrix (Fin p) (Fin p) ℚ
  Phi_inv : Matrix (Fin p) (Fin p) ℚ
  GQGt : Matrix (Fin p) (Fin p) ℚ
  elapsedT_from_last_update : ℚ

/-- The H/R compensation of `INS_GPS_RealTime::correct_with_info`
(INS_GPS_Synchronization.h) before delegation to `correct_primitive`:
RT_NORMAL walks snapshots oldest first doing `H ← H·Φ⁻¹` then
`R ← R + H·GQGᵀ·Hᵀ` with the updated H; RT_LIGHT_WEIGHT uses the
closed-form mean-propagation (Eq. 4.2.41/4.2.42). -/
def correct_with_info_HR {p m : ℕ} (mode : rt_mode_t) (snaps : List (RT_snapshot p))
    (H : Matrix (Fin m) (Fin p) ℚ) (R : Matrix (Fin m) (Fin m) ℚ) :
    Matrix (Fin m) (Fin p) ℚ × Matrix (Fin m) (Fin m) ℚ :=
  match mode with
  | rt_mode_t.RT_LIGHT_WEIGHT =>
    if snaps.isEmpty then (H, R)
    else
      let sum_A := (snaps.map RT_snapshot.A).sum
      let sum_GQGt := (snaps.map RT_snapshot.GQGt).sum
      let n : ℚ := (snaps.length : ℚ)
      let bar_delteT := (snaps.map RT_snapshot.elapsedT_from_last_update).sum / n
      let sum_A_GQGt := sum_A * sum_GQGt
      (H * (1 - bar_delteT • sum_A),
       R + H * (sum_GQGt -
         (bar_delteT * (n - 1) / (2 * n)) • (sum_A_GQGt + sum_A_GQGt.transpose)) * H.transpose)
  | rt_mode_t.RT_NORMAL =>
    snaps.foldl (fun hr s =>
      let H2 := hr.1 * s.Phi_inv
      (H2, hr.2 + H2 * s.GQGt * H2.transpose)) (H, R)

/-- Constant 1×1 rational matrix, for concrete evaluations. -/
def m1 (q : ℚ) : Matrix (Fin 1) (Fin 1) ℚ := Matrix.of fun _ _ => q

/-- A snapshot the real-time filter would store for `A = [1]`, `Δt = 1`:
`Φ = I + A·Δt = [2]`, so `Phi_inv = [1/2]`. -/
def rt_ce_snapshot : RT_snapshot 1 :=
  ⟨m1 1, m1 (1/2), m1 1, 1⟩

/-- C2 counterexample: with one retained snapshot whose stored `Phi_inv` is
exactly the inverse of `Φ = I + A·Δt` (here `A = [1]`, `Δt = 1`, `Φ = [2]`),
RT_NORMAL yields `H' = [1/2]`, `R' = [1/4]` while RT_LIGHT_WEIGHT yields
`H' = [0]`, `R' = [1]`: the two modes do not produce identical H and R. -/
theorem rt_modes_counterexample :
    (rt_ce_snapshot.elapsedT_from_last_update • rt_ce_snapshot.A + 1) * rt_ce_snapshot.Phi_inv
      = 1 ∧
    correct_with_info_HR rt_mode_t.RT_NORMAL [rt_ce_snapshot] (m1 1) (m1 0) ≠
      correct_with_info_HR rt_mode_t.RT_LIGHT_WEIGHT [rt_ce_snapshot] (m1 1) (m1 0) := by
  constructor
  · ext i j
    have hi : i = 0 := Subsingleton.elim i 0
    have hj : j = 0 := Subsingleton.elim j 0
    subst hi hj
    simp [rt_ce_snapshot, m1, Matrix.mul_apply, Matrix.add_apply, Matrix.smul_apply,
      Matrix.one_apply, Fin.sum_univ_one]
    norm_num
  · intro hcontra
    have hN : (correct_with_info_HR rt_mode_t.RT_NORMAL [rt_ce_snapshot]
        (m1 1) (m1 0)).1 0 0 = 1/2 := by
      simp [correct_with_info_HR, rt_ce_snapshot, m1, Matrix.mul_apply, Fin.sum_univ_one]
    have hL : (correct_with_info_HR rt_mode_t.RT_LIGHT_WEIGHT [rt_ce_snapshot]
        (m1 1) (m1 0)).1 0 0 = 0 := by
      simp [correct_with_info_HR, rt_ce_snapshot, m1, Matrix.mul_apply, Matrix.sub_apply,
        Matrix.smul_apply, Matrix.one_apply, Fin.sum_univ_one]
    rw [hcontra, hL] at hN
    norm_num at hN

/-- C2 amended: with exactly one retained snapshot, RT_NORMAL and
RT_LIGHT_WEIGHT produce identical compensated H and R when `A·Δt = 0`
(equivalently `Φ = I`, so the stored `Phi_inv` is the identity); the
counterexample shows they differ for a general snapshot with `A·Δt ≠ 0`. -/
theorem rt_modes_agree_single_step {p m : ℕ} (s : RT_snapshot p)
    (H : Matrix (Fin m) (Fin p) ℚ) (R : Matrix (Fin m) (Fin m) ℚ)
    (hA : s.elapsedT_from_last_update • s.A = 0)
    (hinv : s.Phi_inv * (s.elapsedT_from_last_update • s.A + 1) = 1) :
    correct_with_info_HR rt_mode_t.RT_NORMAL [s] H R =
      correct_with_info_HR rt_mode_t.RT_LIGHT_WEIGHT [s] H R := by
  have hphi : s.Phi_inv = 1 := by
    rw [hA, zero_add, mul_one] at hinv
    exact hinv
  simp [correct_with_info_HR, hphi, hA]

/-- Witness for `rt_modes_agree_single_step` with `A = 0`, `Δt = 1`. -/
theorem rt_modes_agree_single_step_witness :
    ((RT_snapshot.mk (m1 0) 1 (m1 1) 1 : RT_snapshot 1).elapsedT_from_last_update •
        (RT_snapshot.mk (m1 0) 1 (m1 1) 1).A = 0) ∧
    ((RT_snapshot.mk (m1 0) 1 (m1 1) 1).Phi_inv *
        ((RT_snapshot.mk (m1 0) 1 (m1 1) 1).elapsedT_from_last_update •
          (RT_snapshot.mk (m1 0) 1 (m1 1) 1).A + 1) = 1) ∧
    correct_with_info_HR rt_mode_t.RT_NORMAL [RT_snapshot.mk (m1 0) 1 (m1 1) 1] (m1 1) (m1 0) =
      correct_with_info_HR rt_mode_t.RT_LIGHT_WEIGHT
        [RT_snapshot.mk (m1 0) 1 (m1 1) 1] (m1 1) (m1 0) := by
  have h1 : (RT_snapshot.mk (m1 0) 1 (m1 1) 1 : RT_snapshot 1).elapsedT_from_last_update •
      (RT_snapshot.mk (m1 0) 1 (m1 1) 1).A = 0 := by
    ext i j
    simp [m1]
  have h2 : (RT_snapshot.mk (m1 0) 1 (m1 1) 1 : RT_snapshot 1).Phi_inv *
      ((RT_snapshot.mk (m1 0) 1 (m1 1) 1).elapsedT_from_last_update •
        (RT_snapshot.mk (m1 0) 1 (m1 1) 1).A + 1) = 1 := by
    rw [h1, zero_add, one_mul]
  exact ⟨h1, h2, rt_modes_agree_single_step _ _ _ h1 h2⟩

/-- `Ephemeris::base_time` (GPS.h): the clock reference epoch `(WN, t_oc)`. -/
def Ephemeris.base_time (e : Ephemeris) : GPS_Time := ⟨e.WN, e.t_oc⟩

/-- `GPS_Time::serialize` (GPS.h). -/
def GPS_Time.serialize (t : GPS_Time) : ℚ := t.seconds + seconds_week * (t.week : ℚ)

/-- `PropertyHistory::item_t::calc_t_tag` (GPS.h) with TimeQuantization 10:
`floor((t + 5)/10)`, clamped into the `int` range. -/
def calc_t_tag (t : ℚ) : ℤ :=
  let res : ℤ := ⌊(t + 5) / 10⌋
  if res ≥ 2147483647 then 2147483647
  else if res ≤ -2147483648 then -2147483648
  else res

/-- `PropertyHistory::item_t` (GPS.h): a stored ephemeris with its insertion
priority and quantized time tag. -/
structure EphItem where
  eph : Ephemeris
  priority : ℤ
  t_tag : ℤ
deriving DecidableEq, Repr

/-- Placeholder item standing for the unchecked dereference of an in-range
iterator (`history.begin() + selected_index`). -/
def dummy_item : EphItem := ⟨⟨0, 0, 0, 0⟩, 0, 0⟩

/-- `PropertyHistory` (GPS.h): the item vector (chronological, higher
priority first within a 10 s bucket) and the selected index. -/
structure EphHistory where
  history : List EphItem
  selected_index : ℕ
deriving DecidableEq, Repr

/-- Loop state of `PropertyHistory::select` (GPS.h): the `changed` flag and
the running `t_tag`, `delta_t` and `selected_index`. -/
structure SelectState where
  changed : Bool
  t_tag : ℤ
  delta_t : ℚ
  selected_index : ℕ
deriving DecidableEq, Repr

/-- Loop body of `PropertyHistory::select` (GPS.h), instantiated with
`is_valid = Ephemeris::is_valid` and
`get_delta_t = Ephemeris::period_from_first_valid_transmittion` as passed by
`Satellite::select_ephemeris`: skip items sharing the time tag of an already
chosen item, skip invalid items, and adopt an item whose absolute delta is
strictly smaller. -/
def select_step (target : GPS_Time) (st : SelectState) (ix : ℕ × EphItem) : SelectState :=
  if st.changed = true ∧ st.t_tag = ix.2.t_tag then st
  else if ¬(ix.2.eph.is_valid target = true) then st
  else if st.delta_t > |ix.2.eph.period_from_first_valid_transmittion target| then
    ⟨true, ix.2.t_tag, |ix.2.eph.period_from_first_valid_transmittion target|, ix.1⟩
  else st

/-- `PropertyHistory::select` (GPS.h) with the member-function arguments
used by `Satellite::select_ephemeris`.  When the current selection's
`delta_t ≥ 0` the scan covers the items after the selection
(`it_selected + 1` to `end`), otherwise the items before it (`begin` to
`it_selected`), with `delta_t` made non-negative; the scan is an indexed
fold of `select_step`.  Returns the `changed` flag and the history with the
possibly updated selected index. -/
def select_delta_t0 (h : EphHistory) (target : GPS_Time) : ℚ :=
  (h.history.getD h.selected_index dummy_item).eph.period_from_first_valid_transmittion target

/-- The index range scanned by `PropertyHistory::select` (GPS.h): the items
after the current selection when its `delta_t ≥ 0`, the items before it
otherwise. -/
def select_scan (h : EphHistory) (target : GPS_Time) : List (ℕ × EphItem) :=
  if select_delta_t0 h target ≥ 0 then
    List.enumFrom (h.selected_index + 1) (h.history.drop (h.selected_index + 1))
  else
    List.enumFrom 0 (h.history.take h.selected_index)

/-- The loop state `PropertyHistory::select` starts from: unchanged, the
current selection's time tag, `|delta_t|` of the current selection, and the
current index. -/
def select_init (h : EphHistory) (target : GPS_Time) : SelectState :=
  ⟨false, (h.history.getD h.selected_index dummy_item).t_tag,
   if select_delta_t0 h target ≥ 0 then select_delta_t0 h target else -(select_delta_t0 h target),
   h.selected_index⟩

def select_final (h : EphHistory) (target : GPS_Time) : SelectState :=
  (select_scan h target).foldl (select_step target) (select_init h target)

def PropertyHistory_select (h : EphHistory) (target : GPS_Time) : Bool × EphHistory :=
  ((select_final h target).changed, ⟨h.history, (select_final h target).selected_index⟩)

/-- `Satellite::select_ephemeris(target_time)` (GPS.h): keep the current
selection when it is valid and `maybe_better_one_avilable` is false
(returning true); otherwise run `PropertyHistory::select` and return
`changed || is_valid`. -/
def Satellite_select_ephemeris (h : EphHistory) (target : GPS_Time) : Bool × EphHistory :=
  let cur := (h.history.getD h.selected_index dummy_item).eph
  let valid := cur.is_valid target
  if valid = true ∧ cur.maybe_better_one_avilable target = false then (true, h)
  else
    let r := PropertyHistory_select h target
    (r.1 || valid, r.2)

/-- A real ephemeris for the selection scenarios: WN 0, t_oc = t_oe = 7200 s,
4-hour fit interval. -/
def c4_eph : Ephemeris := ⟨0, 7200, 7200, 14400⟩

/-- The sentinel ephemeris installed by `Satellite::Satellite` (GPS.h):
`WN = 0`, `t_oc = 0`, `t_oe = 0`, `fit_interval = -1`. -/
def invalid_ephemeris : Ephemeris := ⟨0, 0, 0, -1⟩

/-- History holding the default sentinel item and one registered ephemeris,
with the registered one selected. -/
def c4_hist : EphHistory :=
  ⟨[⟨invalid_ephemeris, 0, 0⟩, ⟨c4_eph, 1, calc_t_tag (c4_eph.base_time.serialize)⟩], 1⟩

/-- Target time 300 s into week 0: inside `c4_eph`'s fit interval. -/
def c4_time : GPS_Time := ⟨0, 300⟩

/-- C4 counterexample: at `c4_time` the selected `c4_eph` is valid and
`maybe_better_one_avilable` is false, so `select_ephemeris` takes the
conservative branch and returns true with the selection unchanged — the
return value is not "true exactly when the selection changed". -/
theorem select_ephemeris_counterexample :
    (Satellite_select_ephemeris c4_hist c4_time).1 = true ∧
    (Satellite_select_ephemeris c4_hist c4_time).2 = c4_hist := by
  constructor
  · norm_num [Satellite_select_ephemeris, c4_hist, c4_eph, c4_time, invalid_ephemeris,
      Ephemeris.is_valid, Ephemeris.maybe_better_one_avilable,
      Ephemeris.period_from_time_of_clock, Ephemeris.period_from_first_valid_transmittion,
      GPS_Time.interval, seconds_week]
  · norm_num [Satellite_select_ephemeris, c4_hist, c4_eph, c4_time, invalid_ephemeris,
      Ephemeris.is_valid, Ephemeris.maybe_better_one_avilable,
      Ephemeris.period_from_time_of_clock, Ephemeris.period_from_first_valid_transmittion,
      GPS_Time.interval, seconds_week]

/-- Every index produced by `List.enumFrom n l` lies in `[n, n + l.length)`. -/
theorem enumFrom_index_bounds (l : List EphItem) :
    ∀ (n : ℕ) (p : ℕ × EphItem), p ∈ List.enumFrom n l → n ≤ p.1 ∧ p.1 < n + l.length := by
  induction l with
  | nil =>
    intro n p hp
    simp [List.enumFrom] at hp
  | cons x l ih =>
    intro n p hp
    rw [List.enumFrom] at hp
    rcases List.mem_cons.mp hp with h | h
    · subst h
      simp
    · have := ih (n + 1) p h
      constructor
      · omega
      · simp only [List.length_cons]
        omega

/-- The fold of `select_step` preserves the link between the `changed` flag
and the selected index, provided every scanned index differs from the
original selection. -/
theorem select_fold_invariant (target : GPS_Time) (sel : ℕ) :
    ∀ (l : List (ℕ × EphItem)) (st : SelectState),
      (∀ p ∈ l, p.1 ≠ sel) →
      ((st.changed = false → st.selected_index = sel) ∧
       (st.changed = true → st.selected_index ≠ sel)) →
      (((l.foldl (select_step target) st).changed = false →
          (l.foldl (select_step target) st).selected_index = sel) ∧
       ((l.foldl (select_step target) st).changed = true →
          (l.foldl (select_step target) st).selected_index ≠ sel)) := by
  intro l
  induction l with
  | nil =>
    intro st _ hst
    simpa using hst
  | cons x l ih =>
    intro st hl hst
    rw [List.foldl_cons]
    refine ih (select_step target st x) (fun p hp => hl p (List.mem_cons_of_mem x hp)) ?_
    unfold select_step
    split_ifs with h1 h2 h3
    · exact hst
    · exact ⟨fun hc => absurd hc (by simp), fun _ => hl x (List.mem_cons_self x l)⟩
    · exact hst
    · exact hst

/-- `PropertyHistory::select` reports `changed = true` exactly when it moved
the selected index. -/
theorem PropertyHistory_select_changed_iff (h : EphHistory) (target : GPS_Time) :
    (PropertyHistory_select h target).1 = true ↔
      (PropertyHistory_select h target).2.selected_index ≠ h.selected_index := by
  show (select_final h target).changed = true ↔
    (select_final h target).selected_index ≠ h.selected_index
  have hidx : ∀ p ∈ select_scan h target, p.1 ≠ h.selected_index := by
    intro p hp
    rw [select_scan] at hp
    by_cases hd : select_delta_t0 h target ≥ 0
    · rw [if_pos hd] at hp
      have := enumFrom_index_bounds (h.history.drop (h.selected_index + 1))
        (h.selected_index + 1) p hp
      omega
    · rw [if_neg hd] at hp
      have hb := enumFrom_index_bounds (h.history.take h.selected_index) 0 p hp
      have hlen : (h.history.take h.selected_index).length ≤ h.selected_index := by
        simp [List.length_take]
      omega
  have hinv := select_fold_invariant target h.selected_index (select_scan h target)
    (select_init h target) hidx
    (by constructor
        · intro _
          rfl
        · intro hc
          simp [select_init] at hc)
  rw [show (select_scan h target).foldl (select_step target) (select_init h target) =
      select_final h target from rfl] at hinv
  constructor
  · intro hc
    exact hinv.2 hc
  · intro hne
    rcases hfc : (select_final h target).changed with _ | _
    · exact absurd (hinv.1 hfc) hne
    · rfl

/-- C4 amended: `Satellite::select_ephemeris` keeps the current selection
when it is valid and `maybe_better_one_avilable` is false, returning true;
otherwise it delegates to `PropertyHistory::select` (which scans only the
newer part of the history when the current selection's delta is ≥ 0, only
the older part otherwise), and its return value is true exactly when the
selection changed or the previously selected ephemeris was valid at t. -/
theorem select_ephemeris_semantics (h : EphHistory) (target : GPS_Time) :
    (((h.history.getD h.selected_index dummy_item).eph.is_valid target = true ∧
      (h.history.getD h.selected_index dummy_item).eph.maybe_better_one_avilable target
        = false) →
      Satellite_select_ephemeris h target = (true, h)) ∧
    ((Satellite_select_ephemeris h target).1 = true ↔
      ((Satellite_select_ephemeris h target).2.selected_index ≠ h.selected_index ∨
        (h.history.getD h.selected_index dummy_item).eph.is_valid target = true)) := by
  constructor
  · intro hc
    simp only [Satellite_select_ephemeris]
    rw [if_pos hc]
  · by_cases hc : ((h.history.getD h.selected_index dummy_item).eph.is_valid target = true ∧
        (h.history.getD h.selected_index dummy_item).eph.maybe_better_one_avilable target
          = false)
    · simp only [Satellite_select_ephemeris, if_pos hc]
      constructor
      · intro _
        exact Or.inr hc.1
      · intro _
        trivial
    · simp only [Satellite_select_ephemeris, if_neg hc]
      rw [Bool.or_eq_true]
      have hiff := PropertyHistory_select_changed_iff h target
      constructor
      · rintro (hA | hB)
        · exact Or.inl (hiff.mp hA)
        · exact Or.inr hB
      · rintro (hA | hB)
        · exact Or.inl (hiff.mpr hA)
        · exact Or.inr hB

/-- Witness for `select_ephemeris_semantics` at the concrete two-record
history and target time. -/
theorem select_ephemeris_semantics_witness :
    (((c4_hist.history.getD c4_hist.selected_index dummy_item).eph.is_valid c4_time = true ∧
      (c4_hist.history.getD c4_hist.selected_index dummy_item).eph.maybe_better_one_avilable
        c4_time = false) →
      Satellite_select_ephemeris c4_hist c4_time = (true, c4_hist)) ∧
    ((Satellite_select_ephemeris c4_hist c4_time).1 = true ↔
      ((Satellite_select_ephemeris c4_hist c4_time).2.selected_index ≠ c4_hist.selected_index ∨
        (c4_hist.history.getD c4_hist.selected_index dummy_item).eph.is_valid c4_time
          = true)) :=
  select_ephemeris_semantics c4_hist c4_time

/-- `Satellite::Satellite` (GPS.h): the default per-PRN history holds a
single default item whose ephemeris the constructor overwrites with the
sentinel `WN = 0`, `t_oc = 0`, `t_oe = 0`, `fit_interval = -1`, selected. -/
def default_Satellite : EphHistory := ⟨[⟨invalid_ephemeris, 0, 0⟩], 0⟩

/-- C10: before any `register_ephemeris`, the default `Satellite`'s current
ephemeris is the sentinel with `fit_interval = -1` (WN = 0, t_oc = 0,
t_oe = 0), `is_valid(t)` is false for every t, and `select_ephemeris(t)`
returns false for every t. -/
theorem default_satellite_sentinel (t : GPS_Time) :
    invalid_ephemeris = Ephemeris.mk 0 0 0 (-1) ∧
    (default_Satellite.history.getD default_Satellite.selected_index dummy_item).eph
      = invalid_ephemeris ∧
    invalid_ephemeris.is_valid t = false ∧
    (Satellite_select_ephemeris default_Satellite t).1 = false := by
  have hval : invalid_ephemeris.is_valid t = false := by
    unfold Ephemeris.is_valid
    rw [decide_eq_false_iff_not]
    intro hcon
    have h0 := abs_nonneg (invalid_ephemeris.period_from_time_of_clock t)
    rw [show invalid_ephemeris.fit_interval = -1 from rfl] at hcon
    linarith
  have hscan : select_scan default_Satellite t = [] := by
    unfold select_scan
    split_ifs <;> simp [default_Satellite, List.enumFrom]
  have hsel : (PropertyHistory_select default_Satellite t).1 = false := by
    show (select_final default_Satellite t).changed = false
    unfold select_final
    rw [hscan]
    rfl
  refine ⟨rfl, rfl, hval, ?_⟩
  have hcur : (default_Satellite.history.getD default_Satellite.selected_index dummy_item).eph
      = invalid_ephemeris := rfl
  simp only [Satellite_select_ephemeris]
  rw [if_neg (by rw [hcur, hval]; rintro ⟨hx, _⟩; cases hx)]
  rw [show ((PropertyHistory_select default_Satellite t).1 ||
      (default_Satellite.history.getD default_Satellite.selected_index dummy_item).eph.is_valid t)
      = false by rw [hsel, hcur, hval]; rfl]
